import Mathlib

/-!
Verification of the Chief Delphi / BTHS calendar bot core.

The development shallowly embeds the two core modules of the repository:
`bot/utils/api.py` (`ChiefDelphiAPI`: RSS fetch with persisted dedup,
trigger matching, feed search) and `bot/utils/bths.py` (`BTHSCalendar`:
calendar feed parsing, cycle-day index, week schedule, event search).
HTTP and feed parsing are modelled at the boundary: an operation that
performs a request takes the (already fetched and feed-parsed) response
as an explicit argument, with failure cases made explicit.  Python
strings are modelled as Lean strings, with the handful of `str`
operations the code uses (`split`, `strip`, `lower`, `in`, `isdigit`,
`int(...)`) implemented over the underlying character lists.
-/

/-! ## Python string operations -/

/-- Lowercase a string character by character (Python `str.lower`). -/
def lowerStr (s : String) : String := String.mk (s.data.map Char.toLower)

/-- `isPrefB needle hay`: does `hay` start with `needle`? -/
def isPrefB : List Char → List Char → Bool
  | [], _ => true
  | _ :: _, [] => false
  | a :: as, b :: bs => a == b && isPrefB as bs

/-- Substring occurrence over character lists (Python `needle in hay`). -/
def containsSub (needle : List Char) : List Char → Bool
  | [] => needle.isEmpty
  | c :: rest => isPrefB needle (c :: rest) || containsSub needle rest

/-- Python `needle in hay` on strings. -/
def strIn (needle hay : String) : Bool := containsSub needle.data hay.data

/-- Strip leading and trailing whitespace (Python `str.strip`). -/
def stripWs (l : List Char) : List Char :=
  ((l.dropWhile Char.isWhitespace).reverse.dropWhile Char.isWhitespace).reverse

/-- Python `str.strip` on strings. -/
def stripStr (s : String) : String := String.mk (stripWs s.data)

/-- Split a character list on a separator character (Python `str.split(sep)`
for a one-character separator); always returns a non-empty list. -/
def splitListOn (sep : Char) : List Char → List (List Char)
  | [] => [[]]
  | c :: rest =>
    let r := splitListOn sep rest
    if c = sep then [] :: r
    else (c :: r.headD []) :: r.tail

/-- ASCII decimal digit test (Python `str.isdigit` on ASCII input). -/
def isDigitCh (c : Char) : Bool := 48 ≤ c.toNat && c.toNat ≤ 57

/-- Numeric value of a digit string (Python `int(...)` on digits). -/
def digitsVal : List Char → Nat
  | [] => 0
  | c :: rest => (c.toNat - 48) * 10 ^ rest.length + digitsVal rest

/-! ## Calendar data model (`bot/utils/bths.py`) -/

/-- A calendar date (the `.date()` part of a Python `datetime`). -/
structure Date where
  year : Nat
  month : Nat
  day : Nat
deriving DecidableEq, Repr

/-- Gregorian leap-year test, as used by `datetime`. -/
def isLeapYear (y : Nat) : Bool := (y % 4 == 0 && y % 100 != 0) || y % 400 == 0

/-- Number of days in a month, as validated by `datetime`. -/
def daysInMonth (y m : Nat) : Nat :=
  if m == 2 then (if isLeapYear y then 29 else 28)
  else if m == 4 || m == 6 || m == 9 || m == 11 then 30
  else 31

/-- Python `datetime.strptime(s, "%m/%d/%Y")` (date part): exactly three
`/`-separated fields, month and day of one or two digits, year of exactly
four digits, all validated as a real calendar date. -/
def strptimeMDY (s : String) : Option Date :=
  match splitListOn '/' s.data with
  | [ms, ds, ys] =>
    if !ms.isEmpty && decide (ms.length ≤ 2) && ms.all isDigitCh
        && !ds.isEmpty && decide (ds.length ≤ 2) && ds.all isDigitCh
        && (ys.length == 4) && ys.all isDigitCh then
      let m := digitsVal ms
      let d := digitsVal ds
      let y := digitsVal ys
      if 1 ≤ m && m ≤ 12 && 1 ≤ d && d ≤ daysInMonth y m && 1 ≤ y then
        some { year := y, month := m, day := d }
      else none
    else none
  | _ => none

/-- A parsed calendar event, as built by `BTHSCalendar.fetch_calendar`. -/
structure CalEvent where
  title : String
  description : String
  pubDate : Option String
  link : Option String
  cycle_day : Option Nat
  date : Option Date
deriving DecidableEq, Repr

/-- One `<item>` of the calendar RSS feed, fields optional as in the XML. -/
structure RssItem where
  title : Option String
  description : Option String
  pubDate : Option String
  link : Option String
deriving DecidableEq, Repr

/-- Event-date derivation in `fetch_calendar`: if the description is
non-empty, strip it, take the text before the first newline, strip again
and parse as `MM/DD/YYYY`; failure yields `none`. -/
def deriveDate (desc : String) : Option Date :=
  if desc = "" then none
  else strptimeMDY (stripStr (String.mk ((splitListOn '\n' (stripWs desc.data)).headD [])))

/-- Cycle-day derivation in `fetch_calendar`: if the title is non-empty,
take the part before the first `-`, strip it, and if it is all digits
parse it as an integer; failure yields `none`. -/
def deriveCycle (title : String) : Option Nat :=
  if title = "" then none
  else
    let fp := stripWs ((splitListOn '-' title.data).headD [])
    if !fp.isEmpty && fp.all isDigitCh then some (digitsVal fp) else none

/-- Build one event record from a feed item (the loop body of
`fetch_calendar`, with absent fields defaulting as in the source). -/
def parseItem (it : RssItem) : CalEvent :=
  let title_text := it.title.getD ""
  let desc_text := it.description.getD ""
  { title := title_text
    description := desc_text
    pubDate := it.pubDate
    link := it.link
    cycle_day := deriveCycle title_text
    date := deriveDate desc_text }

/-- The `cycle_days` dict assignments made while processing the items, in
feed order: one entry per item whose date and cycle day both parsed. -/
def buildCycleDays : List RssItem → List (Date × Nat)
  | [] => []
  | it :: rest =>
    let e := parseItem it
    (match e.date, e.cycle_day with
      | some d, some c => [(d, c)]
      | _, _ => []) ++ buildCycleDays rest

/-- Python dict lookup over the assignment list: the latest assignment to
a key wins. -/
def dictGet (m : List (Date × Nat)) (d : Date) : Option Nat :=
  m.foldl (fun acc p => if p.1 = d then some p.2 else acc) none

/-- Sort key of a present date; doubled so that every real date key is
even (`datetime.strptime` produces midnight, strictly below
`datetime.max`). -/
def dateKey (d : Date) : Nat := ((d.year * 100 + d.month) * 100 + d.day) * 2

/-- Sort key standing for `datetime.max` (9999-12-31 23:59:59.999999):
odd, hence distinct from (and above) every parsed date's key. -/
def maxDatetimeKey : Nat := ((9999 * 100 + 12) * 100 + 31) * 2 + 1

/-- Sort key used by `fetch_calendar`:
`x['date'] if x['date'] else datetime.max`. -/
def eventKey (e : CalEvent) : Nat :=
  match e.date with
  | some d => dateKey d
  | none => maxDatetimeKey

/-- The order `fetch_calendar` sorts events by. -/
def eventLE (a b : CalEvent) : Prop := eventKey a ≤ eventKey b

instance : DecidableRel eventLE := fun a b => Nat.decLe (eventKey a) (eventKey b)

instance : IsTotal CalEvent eventLE := ⟨fun a b => Nat.le_total (eventKey a) (eventKey b)⟩

instance : IsTrans CalEvent eventLE := ⟨fun _ _ _ => Nat.le_trans⟩

/-- `self._events.sort(key=...)`. -/
def sortEvents (evs : List CalEvent) : List CalEvent := List.insertionSort eventLE evs

/-- Mutable state of a `BTHSCalendar` instance. -/
structure CalState where
  _events : List CalEvent
  cycle_days : List (Date × Nat)
deriving DecidableEq, Repr

/-- Outcome of the HTTP request plus top-level XML parse in
`fetch_calendar`: transport failure (`requests.RequestException`,
including `raise_for_status`), XML parse failure (`ET.ParseError`), or a
parsed document whose `<channel>` may be absent. -/
inductive CalResponse
  | httpError
  | badXml
  | xml (channel : Option (List RssItem))
deriving DecidableEq, Repr

/-- `BTHSCalendar.fetch_calendar`: on transport or XML-parse failure the
exception propagates and the state is untouched; the state is cleared
only after the body parses, then rebuilt from the items and sorted. -/
def fetch_calendar (st : CalState) (r : CalResponse) : Except String Bool × CalState :=
  match r with
  | .httpError => (Except.error "requests.RequestException", st)
  | .badXml => (Except.error "xml.etree.ElementTree.ParseError", st)
  | .xml none =>
    (Except.error "No channel found in RSS feed", { _events := [], cycle_days := [] })
  | .xml (some items) =>
    (Except.ok true,
      { _events := sortEvents (items.map parseItem), cycle_days := buildCycleDays items })

/-- `BTHSCalendar.get_cycle_day` on a loaded state, for a given date. -/
def get_cycle_day (st : CalState) (d : Date) : Option Nat := dictGet st.cycle_days d

/-- Python `datetime.strftime('%A')` via Zeller's congruence on the
proleptic Gregorian calendar. -/
def dayName (dt : Date) : String :=
  let m := if dt.month < 3 then dt.month + 12 else dt.month
  let y := if dt.month < 3 then dt.year - 1 else dt.year
  let h := (dt.day + 13 * (m + 1) / 5 + y + y / 4 + 6 * (y / 100) + y / 400) % 7
  ["Saturday", "Sunday", "Monday", "Tuesday", "Wednesday", "Thursday", "Friday"].getD h ""

/-- Date comparison `a <= b` (Python `date.__le__`, lexicographic). -/
def dateLeB (a b : Date) : Bool :=
  decide (a.year < b.year) ||
    (a.year == b.year &&
      (decide (a.month < b.month) || (a.month == b.month && decide (a.day ≤ b.day))))

/-- One row of the week schedule built by `get_week_schedule`. -/
structure WeekEntry where
  date : Date
  day_name : String
  cycle_day : Option Nat
  title : String
  description : String
deriving DecidableEq, Repr

/-- The loop of `get_week_schedule`: `n` is the number of rows collected
so far; a dated event on or after today is appended, and the loop breaks
once five rows are collected. -/
def weekLoop (today : Date) (n : Nat) : List CalEvent → List WeekEntry
  | [] => []
  | e :: rest =>
    match e.date with
    | some d =>
      if dateLeB today d then
        let w : WeekEntry :=
          { date := d, day_name := dayName d, cycle_day := e.cycle_day,
            title := e.title, description := e.description }
        if 5 ≤ n + 1 then [w] else w :: weekLoop today (n + 1) rest
      else weekLoop today n rest
    | none => weekLoop today n rest

/-- `BTHSCalendar.get_week_schedule` on a loaded state, with the current
date passed explicitly. -/
def get_week_schedule (st : CalState) (today : Date) : List WeekEntry :=
  weekLoop today 0 st._events

/-- The text branch of `search_events`: case-insensitive substring of the
title, or of the description when the description is non-empty. -/
def textMatch (query : String) (e : CalEvent) : Bool :=
  strIn (lowerStr query) (lowerStr e.title) ||
    (!(e.description == "") && strIn (lowerStr query) (lowerStr e.description))

/-- The loop of `search_events`: when the query parsed as a date AND the
event has a date, compare dates; otherwise (including a dateless event
under a date query) fall through to the text branch. -/
def searchLoopCal (query : String) (query_date : Option Date) : List CalEvent → List CalEvent
  | [] => []
  | e :: rest =>
    match query_date, e.date with
    | some qd, some d =>
      if d = qd then e :: searchLoopCal query query_date rest
      else searchLoopCal query query_date rest
    | _, _ =>
      if textMatch query e then e :: searchLoopCal query query_date rest
      else searchLoopCal query query_date rest

/-- `BTHSCalendar.search_events` on a loaded state. -/
def search_events (st : CalState) (query : String) : List CalEvent :=
  searchLoopCal query (strptimeMDY query) st._events

/-! ## Chief Delphi data model (`bot/utils/api.py`) -/

/-- One entry of the forum RSS feed, with the fields the code reads. -/
structure FeedEntry where
  id : String
  title : String
  author : String
  summary : String
  link : String
  published : String
deriving DecidableEq, Repr

/-- The Python dicts the API returns, modelled as association lists of
string keys to string values. -/
abbrev PostDict := List (String × String)

/-- `entry.id.split('-')[-1]`: the trailing segment of the entry id. -/
def extractId (s : String) : String :=
  ((splitListOn '-' s.data).map String.mk).getLastD ""

/-- The post dict built by `get_recent_posts` (and `get_post`). -/
def mkPost (e : FeedEntry) : PostDict :=
  [("id", extractId e.id), ("title", e.title), ("author", e.author),
   ("preview", e.summary), ("thread_url", e.link), ("created_at", e.published)]

/-- The result dict built by `search_posts` (note: no `preview` key). -/
def mkSearchResult (e : FeedEntry) : PostDict :=
  [("id", extractId e.id), ("title", e.title), ("author", e.author),
   ("thread_url", e.link), ("created_at", e.published)]

/-- Read a key of a post dict (`post[k]` on dicts that carry the key). -/
def dget (p : PostDict) (k : String) : String := (List.lookup k p).getD ""

/-- Mutable state of a `ChiefDelphiAPI` instance: the in-memory
`previous_ids` list and the contents of `persist.json`. -/
structure CDState where
  previous_ids : List String
  persist_file : List String
deriving DecidableEq, Repr

/-- The entry loop of `get_recent_posts`: returns the posts whose
extracted id is not in `prev`, in feed order, together with the list of
all extracted ids of the window, in feed order. -/
def processEntries (prev : List String) : List FeedEntry → List PostDict × List String
  | [] => ([], [])
  | e :: rest =>
    let post_id := extractId e.id
    let r := processEntries prev rest
    ((if post_id ∈ prev then r.1 else mkPost e :: r.1), post_id :: r.2)

/-- `ChiefDelphiAPI.get_recent_posts`, with the HTTP outcome explicit:
`none` is a non-200 status (returns `[]`, state untouched); `some
entries` is a parsed feed, after which both the in-memory ids and the
persisted file are replaced wholesale by the window's ids. -/
def get_recent_posts (st : CDState) (resp : Option (List FeedEntry)) :
    List PostDict × CDState :=
  match resp with
  | none => ([], st)
  | some entries =>
    let r := processEntries st.previous_ids entries
    (r.1, { previous_ids := r.2, persist_file := r.2 })

/-- A trigger rule: a dict that may carry an `authors` and/or a
`keywords` list. -/
structure Trigger where
  authors : Option (List String)
  keywords : Option (List String)
deriving DecidableEq, Repr

/-- One element of the list `check_triggers` returns. -/
structure MatchResult where
  trigger : Trigger
  type : String
  «matches» : List String
deriving DecidableEq, Repr

/-- The keyword scan of `check_triggers`: keywords (in declaration
order) whose lowercase form occurs in the lowercased preview or title. -/
def keywordHits (kws : List String) (preview_lower title_lower : String) : List String :=
  kws.filter fun kw =>
    strIn (lowerStr kw) preview_lower || strIn (lowerStr kw) title_lower

/-- The keyword branch of `check_triggers` for one rule: zero or one
`keyword` match result. -/
def checkKw (post : PostDict) (t : Trigger) : List MatchResult :=
  match t.keywords with
  | some kws =>
    let ms := keywordHits kws (lowerStr (dget post "preview")) (lowerStr (dget post "title"))
    if ms.isEmpty then [] else [{ trigger := t, type := "keyword", «matches» := ms }]
  | none => []

/-- `ChiefDelphiAPI.check_triggers`: per rule, the author branch fires
first and `continue`s past the keyword branch; otherwise the keyword
branch runs. -/
def check_triggers (post : PostDict) : List Trigger → List MatchResult
  | [] => []
  | t :: rest =>
    (match t.authors with
     | some authors_list =>
       if authors_list.any (fun a => lowerStr (dget post "author") == lowerStr a) then
         [{ trigger := t, type := "author", «matches» := [dget post "author"] }]
       else checkKw post t
     | none => checkKw post t) ++ check_triggers post rest

/-- The per-entry predicate of `search_posts` (query already
lowercased). -/
def entryMatches (query_lower search_type : String) (e : FeedEntry) : Bool :=
  ((search_type == "all" || search_type == "title") && strIn query_lower (lowerStr e.title))
    || ((search_type == "all" || search_type == "preview")
          && strIn query_lower (lowerStr e.summary))
    || ((search_type == "all" || search_type == "author")
          && strIn query_lower (lowerStr e.author))

/-- The entry loop of `search_posts`: `n` results collected so far; a
matching entry is appended and the loop breaks once `limit` results have
been collected (the length test runs after the append). -/
def searchEntries (query_lower search_type : String) (limit : Nat) (n : Nat) :
    List FeedEntry → List PostDict
  | [] => []
  | e :: rest =>
    if entryMatches query_lower search_type e then
      if limit ≤ n + 1 then [mkSearchResult e]
      else mkSearchResult e :: searchEntries query_lower search_type limit (n + 1) rest
    else searchEntries query_lower search_type limit n rest

/-- `ChiefDelphiAPI.search_posts`, with the HTTP outcome explicit as in
`get_recent_posts`; the dedup state is threaded through untouched (the
method never reads or writes it). -/
def search_posts (st : CDState) (query : String) (limit : Nat) (search_type : String)
    (resp : Option (List FeedEntry)) : List PostDict × CDState :=
  match resp with
  | none => ([], st)
  | some entries => (searchEntries (lowerStr query) search_type limit 0 entries, st)

/-! ## Helper lemmas -/

theorem processEntries_snd (prev : List String) (es : List FeedEntry) :
    (processEntries prev es).2 = es.map fun e => extractId e.id := by
  induction es with
  | nil => rfl
  | cons e rest ih => simp [processEntries, ih]

theorem processEntries_fst_all_new (prev : List String) (es : List FeedEntry)
    (h : ∀ e ∈ es, extractId e.id ∉ prev) :
    (processEntries prev es).1 = es.map mkPost := by
  induction es with
  | nil => rfl
  | cons e rest ih =>
    have he : extractId e.id ∉ prev := h e (by simp)
    have hr := ih fun x hx => h x (by simp [hx])
    simp [processEntries, he, hr]

theorem processEntries_fst_all_old (prev : List String) (es : List FeedEntry)
    (h : ∀ e ∈ es, extractId e.id ∈ prev) :
    (processEntries prev es).1 = [] := by
  induction es with
  | nil => rfl
  | cons e rest ih =>
    have he : extractId e.id ∈ prev := h e (by simp)
    have hr := ih fun x hx => h x (by simp [hx])
    simp [processEntries, he, hr]

/-! ## Claim theorems -/

/-- C8: if the HTTP response status of `get_recent_posts` is non-success,
the call returns an empty sequence and the dedup state — both the
in-memory id list and the persisted file — is left unchanged. -/
theorem get_recent_posts_http_failure (st : CDState) :
    get_recent_posts st none = ([], st) := rfl

/-- C10: if the HTTP request fails or the response body fails top-level
XML parsing, `fetch_calendar` propagates the exception and the previously
stored events and cycle-day index are left unchanged. -/
theorem fetch_calendar_failure_atomic (st : CalState) :
    (fetch_calendar st CalResponse.httpError).2 = st ∧
    (fetch_calendar st CalResponse.badXml).2 = st ∧
    (∃ msg, (fetch_calendar st CalResponse.httpError).1 = Except.error msg) ∧
    (∃ msg, (fetch_calendar st CalResponse.badXml).1 = Except.error msg) :=
  ⟨rfl, rfl, ⟨_, rfl⟩, ⟨_, rfl⟩⟩

/-- C2: on a feed whose extracted ids are disjoint from the prior dedup
state, `get_recent_posts` returns every entry as a post, in feed order,
and afterwards both the in-memory ids and the persisted file equal
exactly the ids of this window (wholesale replacement). -/
theorem get_recent_posts_fresh_window (st : CDState) (entries : List FeedEntry)
    (h : ∀ e ∈ entries, extractId e.id ∉ st.previous_ids) :
    (get_recent_posts st (some entries)).1 = entries.map mkPost ∧
    (get_recent_posts st (some entries)).2.previous_ids
      = entries.map (fun e => extractId e.id) ∧
    (get_recent_posts st (some entries)).2.persist_file
      = entries.map (fun e => extractId e.id) := by
  refine ⟨?_, ?_, ?_⟩ <;>
    simp [get_recent_posts, processEntries_fst_all_new st.previous_ids entries h,
      processEntries_snd]

theorem get_recent_posts_fresh_window_witness :
    (get_recent_posts { previous_ids := ["9"], persist_file := ["9"] }
        (some [{ id := "t-1", title := "T", author := "A", summary := "s", link := "l",
                 published := "p" }])).1
      = [{ id := "t-1", title := "T", author := "A", summary := "s", link := "l",
           published := "p" }].map mkPost ∧
    (get_recent_posts { previous_ids := ["9"], persist_file := ["9"] }
        (some [{ id := "t-1", title := "T", author := "A", summary := "s", link := "l",
                 published := "p" }])).2.previous_ids
      = [{ id := "t-1", title := "T", author := "A", summary := "s", link := "l",
           published := "p" }].map (fun e : FeedEntry => extractId e.id) ∧
    (get_recent_posts { previous_ids := ["9"], persist_file := ["9"] }
        (some [{ id := "t-1", title := "T", author := "A", summary := "s", link := "l",
                 published := "p" }])).2.persist_file
      = [{ id := "t-1", title := "T", author := "A", summary := "s", link := "l",
           published := "p" }].map (fun e : FeedEntry => extractId e.id) :=
  get_recent_posts_fresh_window _ _ (by decide)

/-- C5: if two consecutive `get_recent_posts` calls observe feeds with
identical entry-id sequences, the second call returns an empty list. -/
theorem second_fetch_identical_empty (st : CDState) (entries1 entries2 : List FeedEntry)
    (h : entries2.map FeedEntry.id = entries1.map FeedEntry.id) :
    (get_recent_posts (get_recent_posts st (some entries1)).2 (some entries2)).1 = [] := by
  have hm : entries2.map (fun e => extractId e.id) = entries1.map (fun e => extractId e.id) := by
    have := congrArg (List.map extractId) h
    simpa [List.map_map, Function.comp] using this
  have hall : ∀ e ∈ entries2, extractId e.id ∈ entries1.map (fun e => extractId e.id) := by
    intro e he
    have : extractId e.id ∈ entries2.map (fun e => extractId e.id) :=
      List.mem_map_of_mem _ he
    rwa [hm] at this
  simp only [get_recent_posts]
  rw [processEntries_snd]
  exact processEntries_fst_all_old _ _ hall

theorem second_fetch_identical_empty_witness :
    (get_recent_posts
        (get_recent_posts { previous_ids := [], persist_file := [] }
          (some [{ id := "t-1", title := "T", author := "A", summary := "s", link := "l",
                   published := "p" }])).2
        (some [{ id := "t-1", title := "T2", author := "B", summary := "s2", link := "l2",
                 published := "p2" }])).1 = [] :=
  second_fetch_identical_empty _ _ _ (by decide)

/-- C4: for a rule carrying both an authors set and a keywords set, if the
post's author is (case-insensitively) among the rule's authors, the rule
emits exactly one `author` match result with `matches = [post.author]`,
and its keyword branch is not evaluated. -/
theorem check_triggers_author_precedence (post : PostDict) (t : Trigger)
    (rest : List Trigger) (A K : List String)
    (hA : t.authors = some A) (hK : t.keywords = some K)
    (hmem : ∃ a ∈ A, lowerStr (dget post "author") = lowerStr a) :
    check_triggers post (t :: rest)
      = { trigger := t, type := "author", «matches» := [dget post "author"] }
          :: check_triggers post rest := by
  have hany : A.any (fun a => lowerStr (dget post "author") == lowerStr a) = true := by
    rcases hmem with ⟨a, ha, he⟩
    exact List.any_eq_true.2 ⟨a, ha, by simp [he]⟩
  simp [check_triggers, hA, hany]

theorem check_triggers_author_precedence_witness :
    check_triggers
        [("id", "1"), ("title", "T"), ("author", "Jane"), ("preview", "big robot"),
         ("thread_url", "u"), ("created_at", "c")]
        [{ authors := some ["Jane"], keywords := some ["robot"] }]
      = [{ trigger := { authors := some ["Jane"], keywords := some ["robot"] },
           type := "author", «matches» := ["Jane"] }] := by
  rw [check_triggers_author_precedence _ _ [] ["Jane"] ["robot"] rfl rfl
    ⟨"Jane", by decide, by decide⟩]
  decide

theorem weekLoop_length (today : Date) (evs : List CalEvent) :
    ∀ n, (weekLoop today n evs).length ≤ max (5 - n) 1 := by
  induction evs with
  | nil => intro n; simp [weekLoop]
  | cons e rest ih =>
    intro n
    cases hd : e.date with
    | none => simpa [weekLoop, hd] using ih n
    | some d =>
      by_cases hle : dateLeB today d = true
      · by_cases h5 : 5 ≤ n + 1
        · simp [weekLoop, hd, hle, h5]
        · have := ih (n + 1)
          simp only [weekLoop, hd, hle, if_true, if_neg h5, List.length_cons]
          omega
      · simpa [weekLoop, hd, hle] using ih n

theorem weekLoop_mem (today : Date) (evs : List CalEvent) :
    ∀ n w, w ∈ weekLoop today n evs →
      dateLeB today w.date = true ∧ ∃ e ∈ evs, e.date = some w.date := by
  induction evs with
  | nil => intro n w hw; simp [weekLoop] at hw
  | cons e rest ih =>
    intro n w hw
    cases hd : e.date with
    | none =>
      rw [weekLoop, hd] at hw
      obtain ⟨h1, e2, he2, hd2⟩ := ih n w hw
      exact ⟨h1, e2, by simp [he2], hd2⟩
    | some d =>
      by_cases hle : dateLeB today d = true
      · by_cases h5 : 5 ≤ n + 1
        · rw [weekLoop, hd] at hw
          simp only [hle, if_true, if_pos h5, List.mem_singleton] at hw
          subst hw
          exact ⟨hle, e, by simp, hd⟩
        · rw [weekLoop, hd] at hw
          simp only [hle, if_true, if_neg h5, List.mem_cons] at hw
          rcases hw with hw | hw
          · subst hw
            exact ⟨hle, e, by simp, hd⟩
          · obtain ⟨h1, e2, he2, hd2⟩ := ih (n + 1) w hw
            exact ⟨h1, e2, by simp [he2], hd2⟩
      · rw [weekLoop, hd] at hw
        simp only [hle, if_false, Bool.false_eq_true] at hw
        obtain ⟨h1, e2, he2, hd2⟩ := ih n w hw
        exact ⟨h1, e2, by simp [he2], hd2⟩

/-- C7: `get_week_schedule` returns at most five rows; every row's date is
on or after the query date; and every row's date comes from an event whose
date is present — dateless events never contribute a row. -/
theorem get_week_schedule_spec (st : CalState) (today : Date) :
    (get_week_schedule st today).length ≤ 5 ∧
    (∀ w ∈ get_week_schedule st today, dateLeB today w.date = true) ∧
    (∀ w ∈ get_week_schedule st today, ∃ e ∈ st._events, e.date = some w.date) := by
  refine ⟨?_, ?_, ?_⟩
  · have h := weekLoop_length today st._events 0
    simpa [get_week_schedule] using h
  · intro w hw
    exact (weekLoop_mem today st._events 0 w hw).1
  · intro w hw
    exact (weekLoop_mem today st._events 0 w hw).2

theorem searchEntries_eq (q s : String) (limit : Nat) (es : List FeedEntry) :
    ∀ n, searchEntries q s limit n es
      = ((es.filter (entryMatches q s)).map mkSearchResult).take (max (limit - n) 1) := by
  induction es with
  | nil => intro n; simp [searchEntries]
  | cons e rest ih =>
    intro n
    by_cases hm : entryMatches q s e = true
    · by_cases hb : limit ≤ n + 1
      · have h1 : max (limit - n) 1 = 1 := by omega
        simp [searchEntries, hm, hb, h1, List.filter_cons]
      · have h2 : max (limit - n) 1 = (limit - (n + 1)) + 1 := by omega
        have h4 : max (limit - (n + 1)) 1 = limit - (n + 1) := by omega
        rw [searchEntries]
        simp only [hm, if_true, if_neg hb, ih (n + 1), List.filter_cons, h2, h4,
          List.map_cons, List.take_succ_cons]
    · simp [searchEntries, hm, List.filter_cons, ih n]

/-- C3 counterexample: `search_posts` result dicts carry no `preview`
key, so a returned record does not contain all Post fields. -/
theorem search_posts_missing_preview :
    (search_posts { previous_ids := [], persist_file := [] } "robot" 10 "all"
        (some [{ id := "t-1", title := "Big robot", author := "A", summary := "s",
                 link := "l", published := "p" }])).1
      ≠ [] ∧
    ((search_posts { previous_ids := [], persist_file := [] } "robot" 10 "all"
        (some [{ id := "t-1", title := "Big robot", author := "A", summary := "s",
                 link := "l", published := "p" }])).1.all
      fun r => (List.lookup "preview" r).isSome) = false := by
  constructor
  · decide
  · decide

/-- C3 (amended): `search_posts` returns, in feed order, the entries on
which the lowercased query matches the scoped field(s), rendered as dicts
with keys id/title/author/thread_url/created_at (no preview), truncated
at `limit` — except that `limit = 0` behaves like `limit = 1`, because the
length check runs after an append — and the dedup state is untouched. -/
theorem search_posts_characterization (st : CDState) (query : String) (limit : Nat)
    (search_type : String) (entries : List FeedEntry) :
    (search_posts st query limit search_type (some entries)).1
      = ((entries.filter (entryMatches (lowerStr query) search_type)).map
          mkSearchResult).take (max limit 1) ∧
    (search_posts st query limit search_type (some entries)).2 = st := by
  constructor
  · simpa using searchEntries_eq (lowerStr query) search_type limit entries 0
  · rfl

theorem searchLoopCal_date_filter (query : String) (qd : Date) (evs : List CalEvent) :
    searchLoopCal query (some qd) evs
      = evs.filter fun e =>
          match e.date with
          | some d => decide (d = qd)
          | none => textMatch query e := by
  induction evs with
  | nil => rfl
  | cons e rest ih =>
    cases hd : e.date with
    | some d =>
      by_cases h : d = qd <;> simp [searchLoopCal, hd, h, ih, List.filter_cons]
    | none =>
      by_cases h : textMatch query e = true <;>
        simp [searchLoopCal, hd, h, ih, List.filter_cons]

/-- C1 counterexample: for the date-form query `"03/14/2025"`,
`search_events` returns an event whose date is absent, because a dateless
event falls through to the substring branch and its title contains the
query text. -/
theorem search_events_dateless_fallthrough :
    (strptimeMDY "03/14/2025").isSome = true ∧
    search_events
        { _events := [{ title := "03/14/2025", description := "", pubDate := none,
                        link := none, cycle_day := none, date := none }],
          cycle_days := [] } "03/14/2025"
      = [{ title := "03/14/2025", description := "", pubDate := none,
           link := none, cycle_day := none, date := none }] := by
  constructor
  · decide
  · decide

/-- C1 (amended): for a query that parses as `MM/DD/YYYY`, an event with
a present date is returned exactly when its date equals the parsed date
(its text is ignored); but an event with an absent date falls through to
the substring branch and is returned whenever the query occurs
case-insensitively in its title or non-empty description — so a date-form
query can return dateless events. -/
theorem search_events_date_mode (st : CalState) (query : String) (qd : Date)
    (hq : strptimeMDY query = some qd) :
    search_events st query
      = st._events.filter fun e =>
          match e.date with
          | some d => decide (d = qd)
          | none => textMatch query e := by
  show searchLoopCal query (strptimeMDY query) st._events = _
  rw [hq, searchLoopCal_date_filter]

theorem search_events_date_mode_witness :
    search_events
        { _events := [{ title := "Pi day", description := "03/14/2025\nAssembly",
                        pubDate := none, link := none, cycle_day := none,
                        date := some { year := 2025, month := 3, day := 14 } },
                      { title := "Other", description := "03/15/2025\nLater",
                        pubDate := none, link := none, cycle_day := none,
                        date := some { year := 2025, month := 3, day := 15 } }],
          cycle_days := [] } "03/14/2025"
      = ({ _events := [{ title := "Pi day", description := "03/14/2025\nAssembly",
                         pubDate := none, link := none, cycle_day := none,
                         date := some { year := 2025, month := 3, day := 14 } },
                       { title := "Other", description := "03/15/2025\nLater",
                         pubDate := none, link := none, cycle_day := none,
                         date := some { year := 2025, month := 3, day := 15 } }],
           cycle_days := [] } : CalState)._events.filter fun e =>
          match e.date with
          | some d => decide (d = { year := 2025, month := 3, day := 14 })
          | none => textMatch "03/14/2025" e :=
  search_events_date_mode _ _ { year := 2025, month := 3, day := 14 } (by decide)

theorem parseItem_date (it : RssItem) :
    (parseItem it).date = deriveDate (it.description.getD "") := rfl

theorem parseItem_cycle (it : RssItem) :
    (parseItem it).cycle_day = deriveCycle (it.title.getD "") := rfl

theorem buildCycleDays_append (a b : List RssItem) :
    buildCycleDays (a ++ b) = buildCycleDays a ++ buildCycleDays b := by
  induction a with
  | nil => rfl
  | cons it rest ih => simp [buildCycleDays, ih]

theorem foldl_dict_no_key (b : List (Date × Nat)) (d : Date)
    (hb : ∀ p ∈ b, p.1 ≠ d) :
    ∀ acc, b.foldl (fun acc p => if p.1 = d then some p.2 else acc) acc = acc := by
  induction b with
  | nil => intro acc; rfl
  | cons p rest ih =>
    intro acc
    have hp : p.1 ≠ d := hb p (by simp)
    rw [List.foldl_cons, if_neg hp]
    exact ih (fun q hq => hb q (by simp [hq])) acc

theorem mem_buildCycleDays (items : List RssItem) (p : Date × Nat)
    (hp : p ∈ buildCycleDays items) :
    ∃ it ∈ items, deriveDate (it.description.getD "") = some p.1 ∧
      deriveCycle (it.title.getD "") = some p.2 := by
  induction items with
  | nil => simp [buildCycleDays] at hp
  | cons it rest ih =>
    rw [buildCycleDays, List.mem_append] at hp
    rcases hp with hp | hp
    · cases hd : (parseItem it).date with
      | none => rw [hd] at hp; simp at hp
      | some d =>
        cases hc : (parseItem it).cycle_day with
        | none => rw [hd, hc] at hp; simp at hp
        | some c =>
          rw [hd, hc] at hp
          simp only [List.mem_singleton] at hp
          subst hp
          refine ⟨it, by simp, ?_, ?_⟩
          · rw [← parseItem_date]; exact hd
          · rw [← parseItem_cycle]; exact hc
    · obtain ⟨it2, hmem, h1, h2⟩ := ih hp
      exact ⟨it2, by simp [hmem], h1, h2⟩

/-- C6 counterexample: two feed items registering the same date make the
later registration overwrite the earlier one, so the round-trip fails for
the earlier item: its title yields cycle day 5 and its description yields
03/14/2025, yet the lookup for that date returns 6. -/
theorem cycle_day_overwritten :
    deriveCycle "5 - A" = some 5 ∧
    deriveDate "03/14/2025" = some { year := 2025, month := 3, day := 14 } ∧
    get_cycle_day (fetch_calendar { _events := [], cycle_days := [] }
        (CalResponse.xml (some
          [{ title := some "5 - A", description := some "03/14/2025", pubDate := none,
             link := none },
           { title := some "6 - B", description := some "03/14/2025", pubDate := none,
             link := none }]))).2
      { year := 2025, month := 3, day := 14 } = some 6 := by
  refine ⟨by decide, by decide, by decide⟩

/-- C6 (amended): for a feed item whose title yields cycle day `N` and
whose description's first line parses as date `D`, if no later feed item
also registers date `D` (later registrations overwrite earlier ones),
then after parsing the feed `get_cycle_day` returns `N` for `D`. -/
theorem cycle_day_roundtrip (st : CalState) (pre post_ : List RssItem) (it : RssItem)
    (N : Nat) (D : Date)
    (hc : deriveCycle (it.title.getD "") = some N)
    (hd : deriveDate (it.description.getD "") = some D)
    (hlater : ∀ it2 ∈ post_, deriveDate (it2.description.getD "") = some D →
      deriveCycle (it2.title.getD "") = none) :
    get_cycle_day (fetch_calendar st (CalResponse.xml (some (pre ++ it :: post_)))).2 D
      = some N := by
  have h1 : (parseItem it).date = some D := by rw [parseItem_date]; exact hd
  have h2 : (parseItem it).cycle_day = some N := by rw [parseItem_cycle]; exact hc
  have hbuild : buildCycleDays (pre ++ it :: post_)
      = buildCycleDays pre ++ ((D, N) :: buildCycleDays post_) := by
    rw [buildCycleDays_append]
    congr 1
    rw [buildCycleDays, h1, h2]
    rfl
  have hpost : ∀ p ∈ buildCycleDays post_, p.1 ≠ D := by
    intro p hp heq
    obtain ⟨it2, hmem, hd2, hc2⟩ := mem_buildCycleDays post_ p hp
    rw [heq] at hd2
    rw [hlater it2 hmem hd2] at hc2
    exact Option.noConfusion hc2
  show dictGet (buildCycleDays (pre ++ it :: post_)) D = some N
  rw [hbuild]
  unfold dictGet
  rw [List.foldl_append, List.foldl_cons, if_pos rfl]
  exact foldl_dict_no_key (buildCycleDays post_) D hpost _

theorem cycle_day_roundtrip_witness :
    get_cycle_day (fetch_calendar { _events := [], cycle_days := [] }
        (CalResponse.xml (some ([] ++
          { title := some "5 - Half Day", description := some "03/14/2025\nSpring assembly",
            pubDate := none, link := none } :: ([] : List RssItem))))).2
      { year := 2025, month := 3, day := 14 } = some 5 :=
  cycle_day_roundtrip _ [] [] _ 5 { year := 2025, month := 3, day := 14 }
    (by decide) (by decide) (fun it2 h => nomatch h)

theorem digitsVal_lt (l : List Char) (h : l.all isDigitCh = true) :
    digitsVal l < 10 ^ l.length := by
  induction l with
  | nil => simp [digitsVal]
  | cons c rest ih =>
    rw [List.all_cons, Bool.and_eq_true] at h
    obtain ⟨hc, hrest⟩ := h
    have h9 : c.toNat - 48 ≤ 9 := by
      rw [isDigitCh, Bool.and_eq_true, decide_eq_true_eq, decide_eq_true_eq] at hc
      omega
    have hrec := ih hrest
    rw [digitsVal, List.length_cons, pow_succ]
    have hmul : (c.toNat - 48) * 10 ^ rest.length ≤ 9 * 10 ^ rest.length :=
      Nat.mul_le_mul_right _ h9
    omega

theorem daysInMonth_le (y m : Nat) : daysInMonth y m ≤ 31 := by
  unfold daysInMonth
  split
  · split <;> omega
  · split <;> omega

theorem strptimeMDY_fields (s : String) (d : Date) (h : strptimeMDY s = some d) :
    d.year ≤ 9999 ∧ d.month ≤ 12 ∧ d.day ≤ 31 := by
  unfold strptimeMDY at h
  split at h
  next ms ds ys heq =>
    split at h
    next hguard =>
      dsimp only at h
      split at h
      next hrange =>
        simp only [Option.some.injEq] at h
        subst h
        simp only [Bool.and_eq_true, decide_eq_true_eq, beq_iff_eq] at hguard hrange
        obtain ⟨⟨⟨⟨⟨⟨⟨hm1, hm2⟩, hm3⟩, hd1⟩, hd2⟩, hd3⟩, hy4⟩, hy5⟩ := hguard
        obtain ⟨⟨⟨⟨hr1, hr2⟩, hr3⟩, hr4⟩, hr5⟩ := hrange
        have hy : digitsVal ys < 10 ^ ys.length := digitsVal_lt ys hy5
        rw [hy4] at hy
        have hdm : daysInMonth (digitsVal ys) (digitsVal ms) ≤ 31 :=
          daysInMonth_le _ _
        norm_num at hy
        exact ⟨show digitsVal ys ≤ 9999 by omega, show digitsVal ms ≤ 12 from hr2,
          show digitsVal ds ≤ 31 by omega⟩
      next => exact Option.noConfusion h
    next => exact Option.noConfusion h
  next => exact Option.noConfusion h

/-- C9: after every successful calendar parse, the stored event sequence
is sorted ascending by the sort key (date, with absent dates standing for
`datetime.max`); between two dated events the dates are ascending, and
every dateless event is ordered after every dated event. -/
theorem fetch_calendar_events_sorted (st : CalState) (items : List RssItem) :
    List.Sorted eventLE (fetch_calendar st (CalResponse.xml (some items))).2._events ∧
    List.Pairwise
      (fun a b : CalEvent => ∀ da db, a.date = some da → b.date = some db →
        dateLeB da db = true)
      (fetch_calendar st (CalResponse.xml (some items))).2._events ∧
    List.Pairwise (fun a b : CalEvent => a.date = none → b.date = none)
      (fetch_calendar st (CalResponse.xml (some items))).2._events := by
  have hev : (fetch_calendar st (CalResponse.xml (some items))).2._events
      = sortEvents (items.map parseItem) := rfl
  have hs := List.sorted_insertionSort eventLE (items.map parseItem)
  have hfields : ∀ e ∈ sortEvents (items.map parseItem), ∀ d, e.date = some d →
      d.year ≤ 9999 ∧ d.month ≤ 12 ∧ d.day ≤ 31 := by
    intro e he d hd
    have he2 : e ∈ items.map parseItem :=
      ((List.perm_insertionSort eventLE (items.map parseItem)).mem_iff).1 he
    obtain ⟨it, hit, rfl⟩ := List.mem_map.1 he2
    rw [parseItem_date] at hd
    unfold deriveDate at hd
    split at hd
    · exact Option.noConfusion hd
    · exact strptimeMDY_fields _ _ hd
  refine ⟨by rw [hev]; exact hs, ?_, ?_⟩
  · rw [hev]
    refine List.Pairwise.imp_of_mem ?_ hs
    intro a b ha hb hle da db hda hdb
    have hka : eventKey a = dateKey da := by simp [eventKey, hda]
    have hkb : eventKey b = dateKey db := by simp [eventKey, hdb]
    obtain ⟨hy1, hm1, hd1⟩ := hfields a ha da hda
    obtain ⟨hy2, hm2, hd2⟩ := hfields b hb db hdb
    unfold eventLE at hle
    rw [hka, hkb] at hle
    unfold dateKey at hle
    simp only [dateLeB, Bool.or_eq_true, Bool.and_eq_true, decide_eq_true_eq,
      beq_iff_eq]
    omega
  · rw [hev]
    refine List.Pairwise.imp_of_mem ?_ hs
    intro a b ha hb hle hnone
    cases hbd : b.date with
    | none => rfl
    | some d =>
      have hka : eventKey a = maxDatetimeKey := by simp [eventKey, hnone]
      have hkb : eventKey b = dateKey d := by simp [eventKey, hbd]
      obtain ⟨hy1, hm1, hd1⟩ := hfields b hb d hbd
      unfold eventLE at hle
      rw [hka, hkb] at hle
      unfold dateKey maxDatetimeKey at hle
      omega
